import Mathlib

/-!
Verification development for the `api-foward` repository: a shallow embedding
of the route-resolution and response-normalization engine of `src/index.js`
(and the `server.js` variants in the corpus), together with theorems settling
the specification claims about it.

Conventions of the embedding:
* JavaScript values flowing through the engine are modelled by the inductive
  `Json` below; `undefined` is modelled by `Option.none` at the points where
  the code can observe it.
* Express response emission (`res.status(..).json(..)`, `res.json(..)`,
  `res.redirect(..)`) is modelled by the `HttpResponse` type; `res.json`
  carries status 200.
* The asynchronous upstream axios call of `handleProxyRequest` is modelled by
  an explicit `UpstreamOutcome` argument describing how the awaited promise
  settled, so the rest of the function is a pure case analysis, exactly as in
  the source.
* String primitives of the JavaScript runtime used by the code
  (`split`, `encodeURIComponent`, `URLSearchParams`, the WHATWG `URL`
  constructor) are modelled by executable Lean functions over `List Char`;
  the `URL` constructor is modelled on an explicitly described fragment of
  well-formed absolute URLs (see `parseUrl`).
-/

/-- JSON values as delivered by `JSON.parse` / accepted by `express.json()`.
Object fields keep their textual order; lookup takes the last occurrence of a
repeated name, as `JSON.parse` does. Numbers are modelled as integers, which
suffices for every claim under study. -/
inductive Json where
  | null
  | bool (b : Bool)
  | num (n : Int)
  | str (s : String)
  | arr (elems : List Json)
  | obj (fields : List (String × Json))

/-- JavaScript truthiness of a `Json` value (`undefined` is handled by
`Option` at use sites). -/
def jsTruthy : Json → Bool
  | .null => false
  | .bool b => b
  | .num n => n != 0
  | .str s => s != ""
  | .arr _ => true
  | .obj _ => true

/-- The guard `typeof v` yielding `object` together with a non-null check:
objects and arrays pass, primitives and `null` do not (the code always
guards `null` away via truthiness before the `typeof` check matters). -/
def isObjectLike : Json → Bool
  | .obj _ => true
  | .arr _ => true
  | _ => false

/-- Object property lookup; the last binding of a repeated name wins, matching
the value `JSON.parse` builds. Returns `none` for `undefined`. -/
def objFind : List (String × Json) → String → Option Json
  | [], _ => none
  | (k', v) :: rest, k =>
    match objFind rest k with
    | some r => some r
    | none => if k' = k then some v else none

/-- Digits of a decimal numeral, most significant first, to a `Nat`. -/
def digitsToNat : List Char → Nat → Option Nat
  | [], acc => some acc
  | c :: rest, acc =>
    if c.isDigit then digitsToNat rest (acc * 10 + (c.toNat - 48)) else none

/-- A canonical (no leading zero) decimal array index, as JavaScript array
property access coerces it. -/
def canonicalIndex (s : String) : Option Nat :=
  match s.data with
  | [] => none
  | ['0'] => some 0
  | c :: rest => if c.isDigit ∧ c ≠ '0' then digitsToNat (c :: rest) 0 else none

/-- Property access `v[k]` for the `Json` model: object property lookup, canonical numeric
indexing on arrays, `undefined` (`none`) everywhere else. -/
def jsIndex : Json → String → Option Json
  | .obj fields, k => objFind fields k
  | .arr elems, k =>
    match canonicalIndex k with
    | some i => elems.get? i
    | none => none
  | _, _ => none

/-! ### List-of-characters string primitives

Executable models of the JavaScript string operations the code uses, written
as structural recursions so concrete instances reduce by `rfl`/`decide`. -/

/-- Model of `String.prototype.split(sep)` for a one-character separator. -/
def splitChars (sep : Char) : List Char → List (List Char)
  | [] => [[]]
  | c :: rest =>
    let r := splitChars sep rest
    if c = sep then [] :: r
    else
      match r with
      | [] => [[c]]
      | g :: gs => (c :: g) :: gs

/-- Break a character list at the first occurrence of `sep`: the part before,
and (when `sep` occurs) the part after. -/
def breakAtChar (sep : Char) : List Char → List Char × Option (List Char)
  | [] => ([], none)
  | c :: rest =>
    if c = sep then ([], some rest)
    else
      let (a, b) := breakAtChar sep rest
      (c :: a, b)

/-- Model of `Array.prototype.join(sep)` for strings. -/
def joinSep (sep : String) : List String → String
  | [] => ""
  | [x] => x
  | x :: xs => x ++ sep ++ joinSep sep xs

/-- ASCII-lowercased code point, as the `i` regex flag compares letters. -/
def lowerNat (c : Char) : Nat :=
  if 65 ≤ c.toNat ∧ c.toNat ≤ 90 then c.toNat + 32 else c.toNat

/-- Case-insensitive character comparison against an ASCII pattern char. -/
def eqCI (a b : Char) : Bool := lowerNat a = lowerNat b

/-- Case-insensitive prefix test against a pattern. -/
def prefixCI : List Char → List Char → Bool
  | [], _ => true
  | _ :: _, [] => false
  | p :: ps, c :: cs => eqCI p c && prefixCI ps cs

/-- The alternatives of the extraction regex, in source order. -/
def imageExts : List (List Char) :=
  [['j','p','e','g'], ['j','p','g'], ['g','i','f'], ['p','n','g'],
   ['w','e','b','p'], ['b','m','p'], ['s','v','g']]

/-- Scan for a match of the regex `\.(jpeg|jpg|gif|png|webp|bmp|svg)` at any
position (the regex is unanchored, so `String.prototype.match` tests bare
containment). -/
def extScan : List Char → Bool
  | [] => false
  | c :: rest =>
    (c = '.' && imageExts.any fun ext => prefixCI ext rest) || extScan rest

/-- The test `s.match(/\.(jpeg|jpg|gif|png|webp|bmp|svg)/i)` viewed as a Boolean,
as the code uses it. -/
def hasImageExt (s : String) : Bool := extScan s.data

/-! ### Percent-encoders

`encodeURIComponent` and the `application/x-www-form-urlencoded` serializer
used by `URLSearchParams` / `URL.searchParams`, modelled byte-precisely over
UTF-8. -/

/-- UTF-8 bytes of a code point, as `Nat`s. -/
def utf8Bytes (c : Char) : List Nat :=
  let n := c.toNat
  if n < 0x80 then [n]
  else if n < 0x800 then [0xC0 + n / 0x40, 0x80 + n % 0x40]
  else if n < 0x10000 then
    [0xE0 + n / 0x1000, 0x80 + n / 0x40 % 0x40, 0x80 + n % 0x40]
  else
    [0xF0 + n / 0x40000, 0x80 + n / 0x1000 % 0x40,
     0x80 + n / 0x40 % 0x40, 0x80 + n % 0x40]

/-- Uppercase hexadecimal digit. -/
def hexDigitChar (n : Nat) : Char :=
  "0123456789ABCDEF".data.getD n '0'

/-- Percent escape `%XX` of one byte. -/
def percentByte (b : Nat) : List Char :=
  ['%', hexDigitChar (b / 16), hexDigitChar (b % 16)]

/-- Characters `encodeURIComponent` leaves unescaped:
letters, digits, the apostrophe, and `- _ . ! ~ * ( )`. -/
def uriComponentSafe (c : Char) : Bool :=
  c.isAlphanum || c ∈ ['-', '_', '.', '!', '~', '*', '(', ')'] || c.toNat = 39

/-- Model of `encodeURIComponent`. -/
def encodeURIComponent (s : String) : String :=
  String.mk (s.data.map (fun c =>
    if uriComponentSafe c then [c] else (utf8Bytes c).map percentByte |>.flatten)).flatten

/-- Characters the `application/x-www-form-urlencoded` serializer leaves
unescaped: letters, digits, and `* - . _`. -/
def formSafe (c : Char) : Bool :=
  c.isAlphanum || c ∈ ['*', '-', '.', '_']

/-- Form-urlencoded escape of one string (space becomes
`+`, other non-safe characters become `%XX` over UTF-8). -/
def formEncode (s : String) : String :=
  String.mk (s.data.map (fun c =>
    if formSafe c then [c]
    else if c = ' ' then ['+']
    else (utf8Bytes c).map percentByte |>.flatten)).flatten

/-- Model of `new URLSearchParams(pairs).toString()`, the search component printed by
`URL.toString()`. -/
def serializeSearch (pairs : List (String × String)) : String :=
  joinSep "&" (pairs.map fun p => formEncode p.1 ++ "=" ++ formEncode p.2)

/-! ### The WHATWG `URL` constructor, on a well-formed fragment

The code calls `new URL(baseUrl)`, appends query pairs through
`searchParams.append`, and re-serializes with `toString()`; an unparseable
base URL throws and is handled by a string-concatenation fallback. The model
below accepts exactly a fragment of already-normalized absolute URLs
`scheme://host/path?k=v&...` on which the constructor is verbatim: lowercase
scheme, a host of nonempty already-lowercase labels whose last label starts
with a letter (so the constructor performs no IPv4 or numeric-host
rewriting), a nonempty path containing no dot segments (which the
constructor would collapse), no fragment part, and query keys/values made of
characters the form serializer keeps unchanged. Everything else parses to
`none` (the fallback branch); in particular every base URL on which the
constructor throws is `none`. On the accepted fragment the constructor
performs no normalization, so parse followed by re-serialization is the
identity and the append-then-print behaviour is captured exactly. -/

/-- A parsed structured URL: the part before the query string, verbatim, and
the decoded query pairs. -/
structure ParsedUrl where
  base : String
  query : List (String × String)
deriving Repr

/-- Scheme characters (lowercase, as the constructor normalizes schemes). -/
def isSchemeChar (c : Char) : Bool :=
  c.isLower || c.isDigit || c ∈ ['+', '-', '.']

/-- Host characters of the fragment (already-lowercased registrable names). -/
def isHostChar (c : Char) : Bool :=
  c.isLower || c.isDigit || c ∈ ['.', '-']

/-- Path characters of the fragment (characters the serializer keeps). -/
def isPathChar (c : Char) : Bool :=
  c.isAlphanum || c ∈ ['/', '-', '.', '_', '~']

/-- Host of the fragment: every character plain, every dot-separated label
nonempty, and the last label starting with a letter — the shapes on which
the constructor rewrites nothing (it would parse an all-digit or hex last
label as an IPv4 address). -/
def plainHost (host : List Char) : Bool :=
  host.all isHostChar &&
  (splitChars '.' host).all (fun lab => !lab.isEmpty) &&
  (match (splitChars '.' host).getLast? with
   | some (c :: _) => c.isLower
   | _ => false)

/-- Path of the fragment contains no dot segments: the constructor collapses
a single-dot or double-dot segment, which would break verbatim
re-serialization. -/
def noDotSegments (pathPart : List Char) : Bool :=
  (splitChars '/' pathPart).all fun seg =>
    !(seg == ['.']) && !(seg == ['.', '.'])

/-- One `key=value` piece of a query string of the fragment. -/
def parsePair (seg : List Char) : Option (String × String) :=
  if seg = [] then none
  else
    let (k, v?) := breakAtChar '=' seg
    let v := v?.getD []
    if k.all formSafe && v.all formSafe then some (String.mk k, String.mk v)
    else none

/-- Query-string pieces of the fragment, split on `&`. -/
def parseQueryPairs (cs : List Char) : Option (List (String × String)) :=
  (splitChars '&' cs).mapM parsePair

/-- Model of `new URL(s)` on the described fragment; `none` plays the role of the
constructor throwing. -/
def parseUrl (s : String) : Option ParsedUrl :=
  let cs := s.data
  let scheme := cs.takeWhile isSchemeChar
  match scheme with
  | [] => none
  | c :: _ =>
    if c.isLower then
      match cs.drop scheme.length with
      | ':' :: '/' :: '/' :: tail =>
        let (hostpath, query?) := breakAtChar '?' tail
        let host := hostpath.takeWhile (· ≠ '/')
        let pathPart := hostpath.drop host.length
        if plainHost host ∧ pathPart ≠ [] ∧ pathPart.all isPathChar ∧
            noDotSegments pathPart then
          match query? with
          | none => some ⟨String.mk (scheme ++ ':' :: '/' :: '/' :: hostpath), []⟩
          | some q =>
            if q = [] then none
            else
              match parseQueryPairs q with
              | some pairs =>
                some ⟨String.mk (scheme ++ ':' :: '/' :: '/' :: hostpath), pairs⟩
              | none => none
        else none
      | _ => none
    else none

/-- Model of `URL.toString()`: the pre-query part, then the serialized search when any
pairs are present. -/
def serializeUrl (u : ParsedUrl) : String :=
  u.base ++ (if u.query = [] then "" else "?" ++ serializeSearch u.query)

/-- Target-URL construction of the generic handler (`src/index.js:240-253`):
if any validated parameters exist, append each to the parsed base URL and
re-serialize; when the base URL does not parse, fall back to raw
concatenation of the form-encoded pairs. Total by construction — the
`catch` branch of the source is the `none` branch here. -/
def constructTargetUrl (baseUrl : String) (params : List (String × String)) :
    String :=
  if params.isEmpty then baseUrl
  else
    match parseUrl baseUrl with
    | some u => serializeUrl { u with query := u.query ++ params }
    | none =>
      baseUrl ++ (if baseUrl.data.contains '?' then "&" else "?") ++
        serializeSearch params

/-! ### Configuration data model

Typed images of the JSON configuration entries the handlers read. A field the
configuration may omit is an `Option`; JavaScript `||`-defaulting on strings
is `jsOrStr` (which also skips an empty string, as `||` does). -/

/-- JavaScript defaulting `a || b` for an optionally-present string. -/
def jsOrStr (o : Option String) (dflt : String) : String :=
  match o with
  | none => dflt
  | some s => if s = "" then dflt else s

/-- Truthiness of an optionally-present string. -/
def jsTruthyOptStr (o : Option String) : Bool :=
  match o with
  | none => false
  | some s => s ≠ ""

/-- Falsiness of an optionally-present string (absent or empty). -/
def jsStrFalsy (o : Option String) : Bool := !jsTruthyOptStr o

/-- String interpolation of a possibly-undefined value, as a JavaScript
template literal renders it. -/
def jsTmpl (o : Option String) : String :=
  match o with
  | none => "undefined"
  | some s => s

/-- The `proxySettings` of a route: the dotted extraction path,
the extraction-miss policy, and the default field name of the `/forward`
construction. -/
structure ProxySettings where
  imageUrlField : Option String := none
  fallbackAction : Option String := none
  imageUrlFieldFromParamDefault : Option String := none

/-- One entry of a route's `queryParams` schema. -/
structure ParamSpec where
  name : String
  required : Bool := false
  defaultValue : Option String := none
  validValues : Option (List String) := none

/-- One entry of `currentConfig.apiUrls`. -/
structure RouteEntry where
  method : Option String := none
  url : Option String := none
  urlConstruction : Option String := none
  modelName : Option String := none
  queryParams : Option (List ParamSpec) := none
  proxySettings : Option ProxySettings := none

/-- The in-memory configuration the router reads. -/
structure Config where
  apiUrls : Option (List (String × RouteEntry)) := none
  baseTag : Option String := none

/-- First-match association lookup (configuration objects are built with
unique keys). -/
def assocFind : List (String × RouteEntry) → String → Option RouteEntry
  | [], _ => none
  | (k', v) :: rest, k => if k' = k then some v else assocFind rest k

/-- Route lookup, `undefined` when the table or the key is absent. -/
def cfgLookup (cfg : Config) (k : String) : Option RouteEntry :=
  match cfg.apiUrls with
  | none => none
  | some m => assocFind m k

/-! ### Response model -/

/-- An emitted Express response: `res.status(c).json(b)` (`res.json b` is
status 200) or `res.redirect(loc)`. -/
inductive HttpResponse where
  | status_json (code : Nat) (body : Json)
  | redirect (location : String)

/-- How the awaited `axios.get` settled. `response s b` is a resolved
response (the configured `validateStatus` resolves statuses in `[200,500)`);
`errorResponse` is a rejection carrying `error.response` (statuses `≥ 500`);
`noResponse` is a rejection with only `error.request` (timeout, DNS failure,
connection refused); `setupError` is any other rejection. -/
inductive UpstreamOutcome where
  | response (status : Nat) (body : Json)
  | errorResponse (status : Nat) (body : Json)
  | noResponse
  | setupError (msg : String)

/-- A single apostrophe, kept out of string literals. -/
def apos : String := String.mk [Char.ofNat 39]

/-- Error body naming the upstream status, synthesized when the
upstream body is falsy. -/
def targetErrBody (status : Nat) : Json :=
  .obj [("error", .str ("Target API error (Status " ++ toString status ++ ")"))]

/-- Body of the 404 emitted under the `error` fallback. -/
def extractErrBody (targetUrl : String) : Json :=
  .obj [("error", .str "Could not extract image URL from target API response."),
        ("targetUrl", .str targetUrl)]

/-- Body synthesized when a rejected upstream response has a falsy body. -/
def proxyTargetErrBody : Json :=
  .obj [("error", .str "Proxy target returned an error")]

/-- Body of the 504 emitted when the upstream could not be reached. -/
def timeoutBody (targetUrl : String) : Json :=
  .obj [("error", .str "Proxy request timed out or failed"),
        ("targetUrl", .str targetUrl)]

/-- Body of the 500 emitted on any other request-construction failure. -/
def setupErrBody (msg : String) : Json :=
  .obj [("error", .str "Proxy request setup failed"), ("message", .str msg)]

/-! ### Media-location extraction and the proxy handler -/

/-- The dotted-path walk of `getValueByDotNotation` over the split segments:
each key steps one level deeper; a primitive or missing intermediate makes
the whole walk return `undefined`. -/
def resolveSegs : Json → List String → Option Json
  | v, [] => some v
  | v, k :: ks =>
    if isObjectLike v then
      match jsIndex v k with
      | some v' => resolveSegs v' ks
      | none => none
    else none

/-- Split a dotted path on the dots. -/
def splitPath (path : String) : List String :=
  (splitChars '.' path.data).map String.mk

/-- Model of the dotted-path getter of the source (lines 25-36): `undefined`
for a falsy path, otherwise the dotted walk. -/
def getValueByDotPath (v : Json) (path : String) : Option Json :=
  if path = "" then none else resolveSegs v (splitPath path)

/-- The extraction step of `handleProxyRequest` (`src/index.js:51-64`): with
a truthy configured field and an object-like body, resolve the dotted path;
keep the result only when it is a string matching the image-extension
pattern. There is no other search. -/
def extractImageUrl (fieldToUse : Option String) (data : Json) : Option String :=
  match fieldToUse with
  | none => none
  | some f =>
    if f = "" then none
    else if isObjectLike data then
      match getValueByDotPath data f with
      | some (.str s) => if hasImageExt s then some s else none
      | _ => none
    else none

/-- Effective fallback action: the configured one, defaulting to `returnJson`. -/
def effFallback (ps : ProxySettings) : String :=
  jsOrStr ps.fallbackAction "returnJson"

/-- Model of `handleProxyRequest` (lines 38-88 of the source) given how the upstream call
settled: forward an interpreted status `≥ 400` with its body (or a
synthesized error body); otherwise redirect to an extracted media location;
on an extraction miss apply the fallback action; translate rejections to a
forwarded upstream error, a 504, or a 500. -/
def handleProxyRequest (targetUrl : String) (ps : ProxySettings)
    (outcome : UpstreamOutcome) : HttpResponse :=
  match outcome with
  | .response status body =>
    if 400 ≤ status then
      .status_json status (if jsTruthy body then body else targetErrBody status)
    else
      match extractImageUrl ps.imageUrlField body with
      | some url => .redirect url
      | none =>
        if effFallback ps = "error" then .status_json 404 (extractErrBody targetUrl)
        else .status_json 200 body
  | .errorResponse status body =>
    .status_json status (if jsTruthy body then body else proxyTargetErrBody)
  | .noResponse => .status_json 504 (timeoutBody targetUrl)
  | .setupError msg => .status_json 500 (setupErrBody msg)

/-! ### Generic parameter validation (`src/index.js:210-231`) -/

/-- Error recorded for a present value outside `validValues`. -/
def invalidValueMsg (name : String) (vs : List String) : String :=
  "Invalid value for parameter " ++ apos ++ name ++ apos ++ ". Valid: " ++
    joinSep ", " vs ++ "."

/-- Error recorded for an absent required parameter. -/
def missingParamMsg (name : String) : String :=
  "Missing required query parameter: " ++ name ++ "."

/-- JavaScript object assignment `m[k] = v`: overwrite in place when the key
exists, append otherwise (key enumeration order is insertion order). -/
def jsSet (m : List (String × String)) (k v : String) : List (String × String) :=
  match m with
  | [] => [(k, v)]
  | (k', v') :: rest => if k' = k then (k, v) :: rest else (k', v') :: jsSet rest k v

/-- One iteration of the validation loop over `(validatedParams, errors)`. -/
def validateStep (q : String → Option String)
    (acc : List (String × String) × List String) (p : ParamSpec) :
    List (String × String) × List String :=
  match q p.name with
  | some v =>
    match p.validValues with
    | some vs =>
      if vs.contains v then (jsSet acc.1 p.name v, acc.2)
      else (acc.1, acc.2 ++ [invalidValueMsg p.name vs])
    | none => (jsSet acc.1 p.name v, acc.2)
  | none =>
    if p.required then (acc.1, acc.2 ++ [missingParamMsg p.name])
    else
      match p.defaultValue with
      | some d => (jsSet acc.1 p.name d, acc.2)
      | none => acc

/-- The `for (const paramConfig of queryParamsConfig)` loop. -/
def validateLoop (q : String → Option String) :
    List ParamSpec → List (String × String) × List String →
    List (String × String) × List String
  | [], acc => acc
  | p :: rest, acc => validateLoop q rest (validateStep q acc p)

/-- Validation of the raw query against a route's schema: the accepted
parameter mapping and the accumulated error list. -/
def validateQueryParams (specs : List ParamSpec) (q : String → Option String) :
    List (String × String) × List String :=
  validateLoop q specs ([], [])

/-! ### The wildcard route handler (`src/index.js:133-268`) -/

/-- What the wildcard handler does with a request: decline to the next
middleware, emit a response, or dispatch a proxy fetch of `targetUrl` (after
which `handleProxyRequest` consumes the upstream outcome). -/
inductive RouterOutcome where
  | next
  | respond (r : HttpResponse)
  | proxyTo (targetUrl : String) (ps : ProxySettings)

/-- Body of the 400 aggregating the validation errors. -/
def invalidParamsBody (errors : List String) : Json :=
  .obj [("error", .str "Invalid query parameters."),
        ("details", .arr (errors.map .str))]

/-- Body of the 500 for a missing configuration URL. -/
def missingCfgUrlBody : Json :=
  .obj [("error", .str "Internal server error: API configuration URL is missing.")]

/-- Body of the 400 for a missing `url` query parameter. -/
def missingUrlBody : Json :=
  .obj [("error", .str "Missing required query parameter: url")]

/-- Body of the 400 for a missing `tags` query parameter. -/
def missingTagsBody : Json :=
  .obj [("error", .str "Missing required query parameter: tags")]

/-- Body of the 400 for an invalid `model` on the draw alias. -/
def invalidModelBody (validModels : List String) : Json :=
  .obj [("error", .str ("Invalid model parameter. Valid options: " ++
    joinSep ", " validModels))]

/-- The generic branch of the wildcard handler: validate the query against
the schema, 400 on any error, 500 on a falsy configuration URL, otherwise
build the target URL and either proxy to it or redirect. -/
def genericResolve (entry : RouteEntry) (q : String → Option String) :
    RouterOutcome :=
  if !(validateQueryParams (entry.queryParams.getD []) q).2.isEmpty then
    .respond (.status_json 400
      (invalidParamsBody (validateQueryParams (entry.queryParams.getD []) q).2))
  else if !jsTruthyOptStr entry.url then
    .respond (.status_json 500 missingCfgUrlBody)
  else if entry.method = some "proxy" then
    .proxyTo
      (constructTargetUrl (entry.url.getD "")
        (validateQueryParams (entry.queryParams.getD []) q).1)
      (entry.proxySettings.getD {})
  else
    .respond (.redirect
      (constructTargetUrl (entry.url.getD "")
        (validateQueryParams (entry.queryParams.getD []) q).1))

/-- The wildcard `app.get(..)` handler on one path segment `apiKey` with
query accessor `q`: skip static-looking paths and the system endpoints, look
the key up, run the matching special construction, else fall through to the
generic branch. -/
def apiKeyHandler (cfg : Config) (apiKey : String) (q : String → Option String) :
    RouterOutcome :=
  if apiKey.data.contains '.' || apiKey = "favicon.ico" then .next
  else if apiKey = "config" then .next
  else if apiKey = "admin.html" then .next
  else
    match cfgLookup cfg apiKey with
    | none => .next
    | some entry =>
      if !jsTruthyOptStr entry.method then .next
      else if entry.urlConstruction = some "special_forward" then
        let fieldParam := jsOrStr (q "field")
          (jsOrStr (entry.proxySettings.bind (·.imageUrlFieldFromParamDefault)) "url")
        if jsStrFalsy (q "url") then .respond (.status_json 400 missingUrlBody)
        else
          .proxyTo ((q "url").getD "")
            { entry.proxySettings.getD {} with imageUrlField := some fieldParam }
      else if entry.urlConstruction = some "special_pollinations" then
        if jsStrFalsy (q "tags") then .respond (.status_json 400 missingTagsBody)
        else
          .respond (.redirect (jsTmpl entry.url ++
            encodeURIComponent ((q "tags").getD "") ++ "%2c" ++
            jsOrStr cfg.baseTag "" ++ "?&model=" ++ jsTmpl entry.modelName ++
            "&nologo=true"))
      else if entry.urlConstruction = some "special_draw_redirect" then
        let modelParamConfig := (entry.queryParams.getD []).find? (·.name == "model")
        let model := jsOrStr (q "model")
          (jsOrStr (modelParamConfig.bind (·.defaultValue)) "flux")
        if jsStrFalsy (q "tags") then .respond (.status_json 400 missingTagsBody)
        else
          let validModels := (modelParamConfig.bind (·.validValues)).getD
            ["flux", "turbo"]
          if !validModels.contains model then
            .respond (.status_json 400 (invalidModelBody validModels))
          else
            .respond (.redirect ("/" ++ model ++ "?tags=" ++
              encodeURIComponent ((q "tags").getD "")))
      else genericResolve entry q

/-! ### The configuration endpoints

`GET /config` returns the in-memory configuration; `POST /config` is modelled
from the `server.js` variant with the two persistence backends (the
`src/index.js` variant is the single-backend special case of the same
behaviour): the raw body is checked for a truthy `apiUrls` mapping, the
in-memory configuration is replaced first, and only the reported message
depends on how the persistence attempts went. -/

/-- Response of the configuration read endpoint. -/
def getConfigResponse (current : Json) : HttpResponse :=
  .status_json 200 current

/-- Body of the 400 for a malformed configuration payload. -/
def invalidConfigBody : Json :=
  .obj [("error", .str "Invalid configuration format.")]

/-- The result message matrix of `POST /config` after the in-memory update,
as a function of which persistence backends exist and succeeded. -/
def persistReport (mongoAvailable mongoSaveOk fileOpsEnabled fileWriteOk : Bool) :
    HttpResponse :=
  let mongoSuccess := mongoAvailable && mongoSaveOk
  if fileOpsEnabled then
    if !fileWriteOk then
      if mongoAvailable && !mongoSuccess then
        .status_json 500 (.obj [("error", .str
          "Failed to save configuration to both MongoDB and file, but in-memory config updated.")])
      else if mongoAvailable then
        .status_json 200 (.obj [("message", .str
          "Configuration saved to MongoDB but backup to file failed. Changes are now live.")])
      else
        .status_json 500 (.obj [("error", .str
          "Failed to save configuration to file and MongoDB is not available. In-memory config is updated.")])
    else
      if mongoAvailable then
        .status_json 200 (.obj [("message", .str
          (if mongoSuccess then
            "Configuration updated successfully and saved to both MongoDB and file. Changes are now live."
          else
            "Configuration saved to file but MongoDB update failed. Changes are now live."))])
      else
        .status_json 200 (.obj [("message", .str
          "Configuration saved to local file. MongoDB is not available. Changes are now live.")])
  else
    if mongoAvailable then
      if mongoSuccess then
        .status_json 200 (.obj [("message", .str
          "Configuration saved to MongoDB. Changes are now live.")])
      else
        .status_json 500 (.obj [("error", .str
          "Failed to save configuration to MongoDB, but in-memory config updated.")])
    else
      .status_json 500 (.obj [("error", .str
        "No persistent storage available. Configuration only updated in memory and will be lost on server restart.")])

/-- The payload guard of the configuration write endpoint, negated: a truthy
object-like body whose `apiUrls` member is truthy. -/
def validNewConfig (body : Json) : Bool :=
  jsTruthy body && isObjectLike body && (jsIndex body "apiUrls").elim false jsTruthy

/-- Model of the configuration write endpoint: reject a body without a truthy
`apiUrls` mapping leaving
the table untouched; otherwise replace the in-memory table with the body
before any persistence is attempted, then report the persistence outcome.
Returns the new in-memory configuration and the response. -/
def postConfig (current body : Json)
    (mongoAvailable mongoSaveOk fileOpsEnabled fileWriteOk : Bool) :
    Json × HttpResponse :=
  if !validNewConfig body then
    (current, .status_json 400 invalidConfigBody)
  else
    (body, persistReport mongoAvailable mongoSaveOk fileOpsEnabled fileWriteOk)

/-! ### Specification comparands for the validator

The two functions below restate, clause by clause, what the specification
says a single `ParameterSpec` contributes; the validator theorem compares the
code's accumulated output against them. -/

/-- The error the specification expects one spec to record: a present value
outside `allowedValues`, or an absent required parameter. -/
def specExpectedError (q : String → Option String) (p : ParamSpec) :
    Option String :=
  match q p.name with
  | some v =>
    match p.validValues with
    | some vs => if vs.contains v then none else some (invalidValueMsg p.name vs)
    | none => none
  | none => if p.required then some (missingParamMsg p.name) else none

/-- The accepted binding the specification expects one spec to contribute: a
present allowed value, or the default of an absent optional parameter. -/
def specExpectedValue (q : String → Option String) (p : ParamSpec) :
    Option (String × String) :=
  match q p.name with
  | some v =>
    match p.validValues with
    | some vs => if vs.contains v then some (p.name, v) else none
    | none => some (p.name, v)
  | none =>
    if p.required then none
    else p.defaultValue.map (fun d => (p.name, d))

/-! ### Concrete fixtures used by the witnesses -/

/-- Body holding a sticker object with a nested url field. -/
def stickerBody : Json :=
  .obj [("sticker", .obj [("url", .str "https://x.com/a.png")])]

/-- Body holding a data object with a nested link field. -/
def dataBody : Json :=
  .obj [("data", .obj [("link", .str "https://x.com/a.webp")])]

/-- Body holding a top-level url field. -/
def urlBody : Json :=
  .obj [("url", .str "https://x.com/a.png")]

/-- The pollinations example route of the specification. -/
def exPollEntry : RouteEntry :=
  { method := some "redirect", url := some "https://img.example/prompt/",
    urlConstruction := some "special_pollinations", modelName := some "flux" }

/-- Routing table holding the pollinations example route under `flux`, with
global `baseTag` set. -/
def exPollCfg : Config :=
  { apiUrls := some [("flux", exPollEntry)], baseTag := some "quality%20tag" }

/-- Query of `/flux?tags=cat%2Cwater` with the raw `tags` value taken as the
string the handler reads. -/
def exPollQ : String → Option String :=
  fun k => if k = "tags" then some "cat%2Cwater" else none

/-- Schema: a required `size` restricted to `big`/`small`, and an optional
`color` defaulting to `red`. -/
def exSpecs : List ParamSpec :=
  [{ name := "size", required := true, validValues := some ["big", "small"] },
   { name := "color", defaultValue := some "red" }]

/-- A generic redirect route over a base URL that already carries a `size`
query parameter. -/
def exRedirectEntry : RouteEntry :=
  { method := some "redirect", url := some "https://api.example/img?size=big",
    queryParams := some [{ name := "color", defaultValue := some "red" }] }

/-- Routing table holding the generic example route under `img`. -/
def exRedirectCfg : Config :=
  { apiUrls := some [("img", exRedirectEntry)] }

/-- An entry whose schema is `exSpecs`, used by the validation witness. -/
def exValEntry : RouteEntry :=
  { method := some "redirect", url := some "https://api.example/img",
    queryParams := some exSpecs }

/-- A query supplying only an out-of-range `size`. -/
def exBadQ : String → Option String :=
  fun k => if k = "size" then some "huge" else none

/-- A valid configuration payload: an object with a truthy `apiUrls`. -/
def exNewCfgBody : Json :=
  .obj [("apiUrls", .obj [("doro", .obj [("method", .str "redirect")])]),
        ("baseTag", .str "t")]

/-- An invalid configuration payload: an object with no `apiUrls` member. -/
def exBadCfgBody : Json := .obj [("baseTag", .str "x")]

/-- Body holding a single non-image string field. -/
def notImageBody : Json := .obj [("foo", .str "not-an-image")]

/-- Query carrying the schema-listed `color` plus an unlisted `junk`. -/
def exJunkQ : String → Option String :=
  fun k => if k = "color" then some "blue"
           else if k = "junk" then some "zzz" else none

/-- Query carrying only the schema-listed `color`. -/
def exColorQ : String → Option String :=
  fun k => if k = "color" then some "blue" else none

/-- The empty query. -/
def exEmptyQ : String → Option String := fun _ => none

/-! ## Claim theorems -/

/-- C1 (counterexample): contrary to the claim, with no configured field path
the extractor performs no fallback search over nested-container keys — on the
body `{"sticker":{"url":"https://x.com/a.png"}}` with no field override,
extraction does not return `https://x.com/a.png`; the proxy handler instead
emits the raw body under the default fallback. -/
theorem noFieldExtraction_counterexample :
    extractImageUrl none stickerBody ≠ some "https://x.com/a.png" ∧
    handleProxyRequest "https://api.example/sticker" {} (.response 200 stickerBody) =
      .status_json 200 stickerBody := by
  exact ⟨fun h => Option.noConfusion h, rfl⟩

/-- C1 (amended): with no configured field path, media-location extraction is
not attempted at all — it yields not-found on every JSON value, and an
interpreted upstream response below 400 is answered by the fallback action
(404 under `error`, the raw body otherwise), never by a redirect. -/
theorem noFieldExtraction_amended :
    (∀ v : Json, extractImageUrl none v = none) ∧
    (∀ (url : String) (ps : ProxySettings) (s : Nat) (b : Json),
      ps.imageUrlField = none → s < 400 →
      handleProxyRequest url ps (.response s b) =
        if effFallback ps = "error" then .status_json 404 (extractErrBody url)
        else .status_json 200 b) := by
  refine ⟨fun v => rfl, fun url ps s b hf hs => ?_⟩
  simp only [handleProxyRequest]
  rw [if_neg (Nat.not_le.mpr hs), hf]
  rfl

/-- C1 (witness): the amended claim evaluated on the sticker body. -/
theorem noFieldExtraction_amended_witness :
    extractImageUrl none stickerBody = none ∧
    handleProxyRequest "https://api.example/s" {} (.response 200 stickerBody) =
      .status_json 200 stickerBody := by
  refine ⟨noFieldExtraction_amended.1 stickerBody, ?_⟩
  exact (noFieldExtraction_amended.2 "https://api.example/s" {} 200 stickerBody rfl
    (by omega)).trans (by rfl)

/-- C3: the proxy resolution outcome is exactly the claimed case analysis —
an interpreted status `≥ 400` is forwarded with its (or a synthesized) body;
below 400, an extracted media location becomes a redirect; an extraction miss
becomes 404 under the `error` fallback and the raw body otherwise; a rejected
call with an upstream response forwards its status and body; an unreachable
upstream is 504; any other construction failure is 500. -/
theorem handleProxyRequest_case_analysis (url : String) (ps : ProxySettings) :
    (∀ s b, 400 ≤ s → handleProxyRequest url ps (.response s b) =
      .status_json s (if jsTruthy b then b else targetErrBody s)) ∧
    (∀ s b u, s < 400 → extractImageUrl ps.imageUrlField b = some u →
      handleProxyRequest url ps (.response s b) = .redirect u) ∧
    (∀ s b, s < 400 → extractImageUrl ps.imageUrlField b = none →
      effFallback ps = "error" →
      handleProxyRequest url ps (.response s b) =
        .status_json 404 (extractErrBody url)) ∧
    (∀ s b, s < 400 → extractImageUrl ps.imageUrlField b = none →
      effFallback ps ≠ "error" →
      handleProxyRequest url ps (.response s b) = .status_json 200 b) ∧
    (∀ s b, handleProxyRequest url ps (.errorResponse s b) =
      .status_json s (if jsTruthy b then b else proxyTargetErrBody)) ∧
    handleProxyRequest url ps .noResponse = .status_json 504 (timeoutBody url) ∧
    (∀ m, handleProxyRequest url ps (.setupError m) =
      .status_json 500 (setupErrBody m)) := by
  refine ⟨fun s b h => ?_, fun s b u h he => ?_, fun s b h he hf => ?_,
    fun s b h he hf => ?_, fun s b => rfl, rfl, fun m => rfl⟩
  · simp only [handleProxyRequest]; rw [if_pos h]
  · simp only [handleProxyRequest]; rw [if_neg (Nat.not_le.mpr h), he]
  · simp only [handleProxyRequest]; rw [if_neg (Nat.not_le.mpr h), he]; exact if_pos hf
  · simp only [handleProxyRequest]; rw [if_neg (Nat.not_le.mpr h), he]; exact if_neg hf

/-- C3 (witness): the case analysis evaluated at concrete outcomes. -/
theorem handleProxyRequest_case_analysis_witness :
    handleProxyRequest "https://t" {} (.response 404 Json.null) =
      .status_json 404 (targetErrBody 404) ∧
    handleProxyRequest "https://t" { imageUrlField := some "url" }
      (.response 200 urlBody) = .redirect "https://x.com/a.png" ∧
    handleProxyRequest "https://t" { fallbackAction := some "error" }
      (.response 200 Json.null) = .status_json 404 (extractErrBody "https://t") ∧
    handleProxyRequest "https://t" {} .noResponse =
      .status_json 504 (timeoutBody "https://t") := by
  refine ⟨?_, ?_, ?_, ?_⟩
  · exact ((handleProxyRequest_case_analysis "https://t" {}).1 404 Json.null
      (by omega)).trans (by rfl)
  · exact (handleProxyRequest_case_analysis "https://t"
      { imageUrlField := some "url" }).2.1 200 urlBody "https://x.com/a.png"
      (by omega) (by rfl)
  · exact (handleProxyRequest_case_analysis "https://t"
      { fallbackAction := some "error" }).2.2.1 200 Json.null (by omega)
      (by rfl) (by rfl)
  · exact (handleProxyRequest_case_analysis "https://t" {}).2.2.2.2.2.1

/-- C6: target-URL construction is a total function; an empty validated
mapping returns the base URL unchanged, and a base URL the structured parser
rejects degrades to raw concatenation — `?` when the base has no `?`, `&`
otherwise, followed by the form-encoded mapping. -/
theorem constructTargetUrl_total_fallback (baseUrl : String)
    (params : List (String × String)) :
    baseUrl ≠ "" →
    (params = [] → constructTargetUrl baseUrl params = baseUrl) ∧
    (params ≠ [] → parseUrl baseUrl = none →
      constructTargetUrl baseUrl params =
        baseUrl ++ (if baseUrl.data.contains '?' then "&" else "?") ++
          serializeSearch params) := by
  intro _
  constructor
  · intro h; subst h; rfl
  · intro hne hp
    unfold constructTargetUrl
    rw [if_neg (by simp [List.isEmpty_iff, hne]), hp]

/-- C6 (witness): the fallback evaluated on unparseable base URLs, with and
without a pre-existing `?`, and the empty-mapping identity. -/
theorem constructTargetUrl_total_fallback_witness :
    constructTargetUrl "::bad::" [] = "::bad::" ∧
    constructTargetUrl "::bad::" [("a", "b c")] = "::bad::?a=b+c" ∧
    constructTargetUrl "::bad?x" [("a", "b")] = "::bad?x&a=b" := by
  refine ⟨(constructTargetUrl_total_fallback "::bad::" [] (by decide)).1 rfl, ?_, ?_⟩
  · exact ((constructTargetUrl_total_fallback "::bad::" [("a", "b c")]
      (by decide)).2 (by simp) (by rfl)).trans (by rfl)
  · exact ((constructTargetUrl_total_fallback "::bad?x" [("a", "b")]
      (by decide)).2 (by simp) (by rfl)).trans (by rfl)

/-- C7: a configuration payload without a truthy routes mapping is rejected
with 400 and the in-memory table is unchanged; a valid payload replaces the
in-memory table with the payload irrespective of every persistence flag, so
`GET /config` reflects it immediately even when every backend fails. -/
theorem postConfig_inMemory_first (current body : Json)
    (ma ms fo fw ma2 ms2 fo2 fw2 : Bool) :
    (validNewConfig body = false →
      postConfig current body ma ms fo fw =
        (current, .status_json 400 invalidConfigBody)) ∧
    (validNewConfig body = true →
      (postConfig current body ma ms fo fw).1 = body ∧
      getConfigResponse (postConfig current body ma ms fo fw).1 =
        .status_json 200 body ∧
      (postConfig current body ma ms fo fw).1 =
        (postConfig current body ma2 ms2 fo2 fw2).1) := by
  constructor
  · intro h; simp [postConfig, h]
  · intro h; simp [postConfig, h, getConfigResponse]

/-- C7 (witness): a valid payload is live in memory with all backends failing
or absent; an `apiUrls`-less payload is rejected and the table kept. -/
theorem postConfig_inMemory_first_witness :
    (postConfig exBadCfgBody exNewCfgBody false false false false).1 =
      exNewCfgBody ∧
    getConfigResponse (postConfig exBadCfgBody exNewCfgBody false false false false).1 =
      .status_json 200 exNewCfgBody ∧
    postConfig exNewCfgBody exBadCfgBody true true true true =
      (exNewCfgBody, .status_json 400 invalidConfigBody) := by
  have hv := (postConfig_inMemory_first exBadCfgBody exNewCfgBody
    false false false false true true true true).2 (by rfl)
  have hb := (postConfig_inMemory_first exNewCfgBody exBadCfgBody
    true true true true false false false false).1 (by rfl)
  exact ⟨hv.1, hv.2.1, hb⟩

/-- C8: dotted-path extraction resolves one segment at a time — a primitive
intermediate or a missing key yields not-found, a resolved value steps the
walk — and a resolved candidate is kept exactly when it is a string matching
the image-extension pattern; a failing candidate or non-string resolution is
not-found, never an error. -/
theorem dotPath_resolution :
    (∀ (v : Json) (k : String) (ks : List String), isObjectLike v = false →
      resolveSegs v (k :: ks) = none) ∧
    (∀ (v : Json) (k : String) (ks : List String), jsIndex v k = none →
      resolveSegs v (k :: ks) = none) ∧
    (∀ (v v' : Json) (k : String) (ks : List String), jsIndex v k = some v' →
      resolveSegs v (k :: ks) = resolveSegs v' ks) ∧
    (∀ (v : Json) (path : String), path ≠ "" →
      getValueByDotPath v path = resolveSegs v (splitPath path)) ∧
    (∀ (v : Json) (f s : String), f ≠ "" → isObjectLike v = true →
      getValueByDotPath v f = some (.str s) →
      extractImageUrl (some f) v = (if hasImageExt s then some s else none)) ∧
    (∀ (v : Json) (f : String) (r : Json), f ≠ "" → isObjectLike v = true →
      getValueByDotPath v f = some r → (∀ s, r ≠ .str s) →
      extractImageUrl (some f) v = none) ∧
    (∀ (v : Json) (f : String), f ≠ "" → isObjectLike v = true →
      getValueByDotPath v f = none → extractImageUrl (some f) v = none) := by
  refine ⟨fun v k ks h => ?_, fun v k ks h => ?_, fun v v' k ks h => ?_,
    fun v path h => ?_, fun v f s hf ho hv => ?_, fun v f r hf ho hv hs => ?_,
    fun v f hf ho hv => ?_⟩
  · simp only [resolveSegs]; rw [if_neg (by simp [h])]
  · by_cases ho : isObjectLike v = true
    · simp only [resolveSegs]; rw [if_pos ho, h]
    · simp only [resolveSegs]; rw [if_neg ho]
  · have ho : isObjectLike v = true := by
      cases v <;> first | rfl | exact absurd h (by simp [jsIndex])
    simp only [resolveSegs]; rw [if_pos ho, h]
  · simp only [getValueByDotPath]; rw [if_neg h]
  · simp only [extractImageUrl]; rw [if_neg hf, if_pos (by simp [ho]), hv]
  · simp only [extractImageUrl]; rw [if_neg hf, if_pos (by simp [ho]), hv]
    cases r with
    | str s => exact absurd rfl (hs s)
    | null => rfl
    | bool b => rfl
    | num n => rfl
    | arr a => rfl
    | obj o => rfl
  · simp only [extractImageUrl]; rw [if_neg hf, if_pos (by simp [ho]), hv]

/-- C8 (witness): explicit-path extraction on the specification examples. -/
theorem dotPath_resolution_witness :
    extractImageUrl (some "data.link") dataBody = some "https://x.com/a.webp" ∧
    extractImageUrl (some "foo") notImageBody = none ∧
    getValueByDotPath stickerBody "sticker.missing.url" = none := by
  refine ⟨?_, ?_, rfl⟩
  · exact (dotPath_resolution.2.2.2.2.1 dataBody "data.link" "https://x.com/a.webp"
      (by decide) rfl (by rfl)).trans (by rfl)
  · exact (dotPath_resolution.2.2.2.2.1 notImageBody "foo" "not-an-image"
      (by decide) rfl (by rfl)).trans (by rfl)

/-- Helper: assigning a fresh key appends it. -/
theorem jsSet_of_not_mem (m : List (String × String)) (k v : String)
    (h : k ∉ m.map Prod.fst) : jsSet m k v = m ++ [(k, v)] := by
  induction m with
  | nil => rfl
  | cons p rest ih =>
    obtain ⟨a, b⟩ := p
    simp only [List.map_cons, List.mem_cons, not_or] at h
    simp only [jsSet]
    rw [if_neg (Ne.symm h.1), ih h.2]
    rfl

/-- Helper: a binding in the result of an assignment was already present or
carries the assigned key. -/
theorem mem_jsSet (m : List (String × String)) (k v k' v' : String)
    (h : (k', v') ∈ jsSet m k v) : (k', v') ∈ m ∨ k' = k := by
  induction m with
  | nil =>
    simp only [jsSet, List.mem_singleton] at h
    exact Or.inr (congrArg Prod.fst h)
  | cons p rest ih =>
    obtain ⟨a, b⟩ := p
    simp only [jsSet] at h
    by_cases hc : a = k
    · rw [if_pos hc] at h
      rcases List.mem_cons.mp h with h1 | h2
      · exact Or.inr (congrArg Prod.fst h1)
      · exact Or.inl (List.mem_cons_of_mem _ h2)
    · rw [if_neg hc] at h
      rcases List.mem_cons.mp h with h1 | h2
      · exact Or.inl (h1 ▸ List.mem_cons_self _ _)
      · rcases ih h2 with hm | hk
        · exact Or.inl (List.mem_cons_of_mem _ hm)
        · exact Or.inr hk

/-- Helper: the validation loop appends exactly the per-spec expected errors,
in declaration order, to whatever errors were already accumulated. -/
theorem validateLoop_errors (q : String → Option String) :
    ∀ (specs : List ParamSpec) (acc : List (String × String) × List String),
      (validateLoop q specs acc).2 = acc.2 ++ specs.filterMap (specExpectedError q) := by
  intro specs
  induction specs with
  | nil => intro acc; simp [validateLoop]
  | cons p rest ih =>
    intro acc
    simp only [validateLoop, List.filterMap_cons]
    cases hq : q p.name with
    | none =>
      cases hr : p.required with
      | true =>
        have hstep : validateStep q acc p = (acc.1, acc.2 ++ [missingParamMsg p.name]) := by
          simp [validateStep, hq, hr]
        have hexp : specExpectedError q p = some (missingParamMsg p.name) := by
          simp [specExpectedError, hq, hr]
        rw [hstep, ih, hexp]
        simp
      | false =>
        have hexp : specExpectedError q p = none := by
          simp [specExpectedError, hq, hr]
        cases hd : p.defaultValue with
        | none =>
          have hstep : validateStep q acc p = acc := by
            simp [validateStep, hq, hr, hd]
          rw [hstep, ih, hexp]
        | some d =>
          have hstep : validateStep q acc p = (jsSet acc.1 p.name d, acc.2) := by
            simp [validateStep, hq, hr, hd]
          rw [hstep, ih, hexp]
    | some v =>
      cases hv : p.validValues with
      | none =>
        have hstep : validateStep q acc p = (jsSet acc.1 p.name v, acc.2) := by
          simp [validateStep, hq, hv]
        have hexp : specExpectedError q p = none := by
          simp [specExpectedError, hq, hv]
        rw [hstep, ih, hexp]
      | some vs =>
        cases hc : vs.contains v with
        | true =>
          have hm : v ∈ vs := List.mem_of_elem_eq_true hc
          have hstep : validateStep q acc p = (jsSet acc.1 p.name v, acc.2) := by
            simp [validateStep, hq, hv, hm]
          have hexp : specExpectedError q p = none := by
            simp [specExpectedError, hq, hv, hm]
          rw [hstep, ih, hexp]
        | false =>
          have hm : v ∉ vs := fun h => by
            have := List.elem_eq_true_of_mem h
            rw [show vs.elem v = vs.contains v from rfl, hc] at this
            exact Bool.noConfusion this
          have hstep : validateStep q acc p =
              (acc.1, acc.2 ++ [invalidValueMsg p.name vs]) := by
            simp [validateStep, hq, hv, hm]
          have hexp : specExpectedError q p = some (invalidValueMsg p.name vs) := by
            simp [specExpectedError, hq, hv, hm]
          rw [hstep, ih, hexp]
          simp

/-- Helper: with pairwise-distinct spec names none of which is already bound,
the validation loop appends exactly the per-spec expected bindings, in
declaration order. -/
theorem validateLoop_values (q : String → Option String) :
    ∀ (specs : List ParamSpec) (vp : List (String × String)) (es : List String),
      (specs.map ParamSpec.name).Nodup →
      (∀ p ∈ specs, p.name ∉ vp.map Prod.fst) →
      (validateLoop q specs (vp, es)).1 =
        vp ++ specs.filterMap (specExpectedValue q) := by
  intro specs
  induction specs with
  | nil => intro vp es _ _; simp [validateLoop]
  | cons p rest ih =>
    intro vp es hnd hdisj
    simp only [List.map_cons, List.nodup_cons] at hnd
    obtain ⟨hnp, hndr⟩ := hnd
    have hpvp : p.name ∉ vp.map Prod.fst := hdisj p (List.mem_cons_self _ _)
    have hdisjr : ∀ p' ∈ rest, p'.name ∉ vp.map Prod.fst :=
      fun p' hp' => hdisj p' (List.mem_cons_of_mem _ hp')
    have hdisjApp : ∀ (x : String), ∀ p' ∈ rest,
        p'.name ∉ (vp ++ [(p.name, x)]).map Prod.fst := by
      intro x p' hp'
      simp only [List.map_append, List.mem_append, List.map_cons, List.map_nil,
        List.mem_singleton, not_or]
      exact ⟨hdisjr p' hp',
        fun hEq => hnp (hEq ▸ List.mem_map_of_mem ParamSpec.name hp')⟩
    simp only [validateLoop, List.filterMap_cons]
    cases hq : q p.name with
    | none =>
      cases hr : p.required with
      | true =>
        have hstep : validateStep q (vp, es) p =
            (vp, es ++ [missingParamMsg p.name]) := by
          simp [validateStep, hq, hr]
        have hexp : specExpectedValue q p = none := by
          simp [specExpectedValue, hq, hr]
        rw [hstep, ih vp (es ++ [missingParamMsg p.name]) hndr hdisjr, hexp]
      | false =>
        cases hd : p.defaultValue with
        | none =>
          have hstep : validateStep q (vp, es) p = (vp, es) := by
            simp [validateStep, hq, hr, hd]
          have hexp : specExpectedValue q p = none := by
            simp [specExpectedValue, hq, hr, hd]
          rw [hstep, ih vp es hndr hdisjr, hexp]
        | some d =>
          have hstep : validateStep q (vp, es) p = (jsSet vp p.name d, es) := by
            simp [validateStep, hq, hr, hd]
          have hexp : specExpectedValue q p = some (p.name, d) := by
            simp [specExpectedValue, hq, hr, hd]
          rw [hstep, jsSet_of_not_mem vp p.name d hpvp,
            ih (vp ++ [(p.name, d)]) es hndr (hdisjApp d), hexp]
          simp
    | some v =>
      cases hv : p.validValues with
      | none =>
        have hstep : validateStep q (vp, es) p = (jsSet vp p.name v, es) := by
          simp [validateStep, hq, hv]
        have hexp : specExpectedValue q p = some (p.name, v) := by
          simp [specExpectedValue, hq, hv]
        rw [hstep, jsSet_of_not_mem vp p.name v hpvp,
          ih (vp ++ [(p.name, v)]) es hndr (hdisjApp v), hexp]
        simp
      | some vs =>
        cases hc : vs.contains v with
        | true =>
          have hm : v ∈ vs := List.mem_of_elem_eq_true hc
          have hstep : validateStep q (vp, es) p = (jsSet vp p.name v, es) := by
            simp [validateStep, hq, hv, hm]
          have hexp : specExpectedValue q p = some (p.name, v) := by
            simp [specExpectedValue, hq, hv, hm]
          rw [hstep, jsSet_of_not_mem vp p.name v hpvp,
            ih (vp ++ [(p.name, v)]) es hndr (hdisjApp v), hexp]
          simp
        | false =>
          have hm : v ∉ vs := fun h => by
            have := List.elem_eq_true_of_mem h
            rw [show vs.elem v = vs.contains v from rfl, hc] at this
            exact Bool.noConfusion this
          have hstep : validateStep q (vp, es) p =
              (vp, es ++ [invalidValueMsg p.name vs]) := by
            simp [validateStep, hq, hv, hm]
          have hexp : specExpectedValue q p = none := by
            simp [specExpectedValue, hq, hv, hm]
          rw [hstep, ih vp (es ++ [invalidValueMsg p.name vs]) hndr hdisjr, hexp]

/-- C2: the validator processes every spec in declaration order and
accumulates: a present out-of-range value records its error, a present
allowed value is accepted, an absent required parameter records its error, an
absent optional parameter takes its default or is omitted; all errors are
gathered and any error turns the generic resolution into a 400 carrying the
full list. -/
theorem validator_accumulates_all (specs : List ParamSpec)
    (q : String → Option String) (entry : RouteEntry) :
    (specs.map ParamSpec.name).Nodup →
    entry.queryParams = some specs →
    (validateQueryParams specs q).2 = specs.filterMap (specExpectedError q) ∧
    (validateQueryParams specs q).1 = specs.filterMap (specExpectedValue q) ∧
    (specs.filterMap (specExpectedError q) ≠ [] →
      genericResolve entry q = .respond (.status_json 400
        (invalidParamsBody (specs.filterMap (specExpectedError q))))) := by
  intro hnd hqp
  have he : (validateQueryParams specs q).2 =
      specs.filterMap (specExpectedError q) := by
    have h := validateLoop_errors q specs ([], [])
    simpa [validateQueryParams] using h
  have hv : (validateQueryParams specs q).1 =
      specs.filterMap (specExpectedValue q) := by
    have h := validateLoop_values q specs [] [] hnd (by simp)
    simpa [validateQueryParams] using h
  refine ⟨he, hv, fun hne => ?_⟩
  have hcond : ((specs.filterMap (specExpectedError q)).isEmpty) = false := by
    cases hl : specs.filterMap (specExpectedError q) with
    | nil => exact absurd hl hne
    | cons a l => rfl
  unfold genericResolve
  rw [hqp]
  simp only [Option.getD_some]
  rw [he, hcond]
  simp

/-- C2 (witness): the accumulation evaluated on a schema with a violated
`allowedValues` constraint and a defaulted optional parameter. -/
theorem validator_accumulates_all_witness :
    (validateQueryParams exSpecs exBadQ).2 =
      [invalidValueMsg "size" ["big", "small"]] ∧
    (validateQueryParams exSpecs exBadQ).1 = [("color", "red")] ∧
    genericResolve exValEntry exBadQ = .respond (.status_json 400
      (invalidParamsBody [invalidValueMsg "size" ["big", "small"]])) := by
  have h := validator_accumulates_all exSpecs exBadQ exValEntry (by decide) rfl
  exact ⟨h.1.trans (by rfl), h.2.1.trans (by rfl),
    (h.2.2 (by decide)).trans (by rfl)⟩

/-- Helper: the case-insensitive prefix test holds exactly when the lowered
candidate starts with the lowered pattern. -/
theorem prefixCI_iff (p : List Char) : ∀ cs : List Char,
    prefixCI p cs = true ↔ ∃ post, cs.map lowerNat = p.map lowerNat ++ post := by
  induction p with
  | nil =>
    intro cs
    simp [prefixCI]
  | cons a ps ih =>
    intro cs
    cases cs with
    | nil =>
      simp only [prefixCI, List.map_nil, List.map_cons]
      constructor
      · intro h; exact Bool.noConfusion h
      · rintro ⟨post, h⟩; exact List.noConfusion h
    | cons c cs' =>
      simp only [prefixCI, List.map_cons, Bool.and_eq_true]
      constructor
      · rintro ⟨h1, h2⟩
        have hl : lowerNat a = lowerNat c := by
          have := of_decide_eq_true (by simpa [eqCI] using h1)
          exact this
        obtain ⟨post, hp⟩ := (ih cs').mp h2
        exact ⟨post, by rw [hp, hl]; rfl⟩
      · rintro ⟨post, hp⟩
        injection hp with h1 h2
        refine ⟨by simp [eqCI, h1], (ih cs').mpr ⟨post, h2⟩⟩

/-- Helper: a lowered code point equal to the dot is the dot. -/
theorem eq_dot_of_lowerNat_eq (c : Char) (h : lowerNat c = Char.toNat '.') :
    c = '.' := by
  have h46 : c.toNat = 46 := by
    unfold lowerNat at h
    rw [show Char.toNat '.' = 46 from by decide] at h
    by_cases hb : 65 ≤ c.toNat ∧ c.toNat ≤ 90
    · rw [if_pos hb] at h
      omega
    · rw [if_neg hb] at h
      exact h
  have := congrArg Char.ofNat h46
  rw [Char.ofNat_toNat] at this
  exact this

/-- Helper: the regex scan accepts exactly the character lists whose lowered
form contains a dot immediately followed by one of the lowered extension
alternatives. -/
theorem extScan_iff : ∀ cs : List Char,
    extScan cs = true ↔ ∃ pre ext post, ext ∈ imageExts ∧
      cs.map lowerNat = pre ++ Char.toNat '.' :: (ext.map lowerNat ++ post) := by
  intro cs
  induction cs with
  | nil =>
    simp only [extScan, List.map_nil]
    constructor
    · intro h; exact Bool.noConfusion h
    · rintro ⟨pre, ext, post, _, h⟩
      rcases pre with _ | ⟨a, pre'⟩ <;> exact List.noConfusion h
  | cons c rest ih =>
    simp only [extScan, Bool.or_eq_true, Bool.and_eq_true, List.any_eq_true,
      List.map_cons]
    constructor
    · rintro (⟨hdot, ext, hmem, hpre⟩ | hrest)
      · have hc : c = '.' := of_decide_eq_true (by simpa using hdot)
        obtain ⟨post, hp⟩ := (prefixCI_iff ext rest).mp hpre
        refine ⟨[], ext, post, hmem, ?_⟩
        rw [hp, hc, show lowerNat '.' = Char.toNat '.' from by decide]
        rfl
      · obtain ⟨pre, ext, post, hm, hp⟩ := ih.mp hrest
        exact ⟨lowerNat c :: pre, ext, post, hm, by rw [hp]; rfl⟩
    · rintro ⟨pre, ext, post, hm, hp⟩
      cases pre with
      | nil =>
        rw [List.nil_append] at hp
        injection hp with h1 h2
        left
        have hc : c = '.' := eq_dot_of_lowerNat_eq c h1
        exact ⟨by simp [hc], ext, hm, (prefixCI_iff ext rest).mpr ⟨post, h2⟩⟩
      | cons a pre' =>
        injection hp with h1 h2
        exact Or.inr (ih.mpr ⟨pre', ext, post, hm, h2⟩)

/-- C9: the image-extension acceptance test is a substring match, not a
suffix match — a candidate is accepted exactly when it contains a dot
immediately followed by one of the extension alternatives, case-insensitively,
anywhere in the string; in particular `https://x.com/a.png?token=abc` and
`file.PNGextra` are accepted. -/
theorem imageExt_substring_match :
    hasImageExt "https://x.com/a.png?token=abc" = true ∧
    hasImageExt "file.PNGextra" = true ∧
    (∀ s : String, hasImageExt s = true ↔ ∃ pre ext post, ext ∈ imageExts ∧
      s.data.map lowerNat =
        pre ++ Char.toNat '.' :: (ext.map lowerNat ++ post)) := by
  exact ⟨by decide, by decide, fun s => extScan_iff s.data⟩

/-- C9 (witness): the characterization applied to a concrete accepted string,
with the decomposition spelled out. -/
theorem imageExt_substring_match_witness :
    hasImageExt "a.png?x" = true ∧
    "a.png?x".data.map lowerNat =
      [Char.toNat 'a'] ++ Char.toNat '.' ::
        (['p', 'n', 'g'].map lowerNat ++ [Char.toNat '?', Char.toNat 'x']) :=
  ⟨(imageExt_substring_match.2.2 "a.png?x").mpr
    ⟨[Char.toNat 'a'], ['p', 'n', 'g'],
     [Char.toNat '?', Char.toNat 'x'], by decide, by decide⟩,
   by decide⟩

/-- C4: a pollinations-style route rejects a missing (or empty, which
JavaScript treats as missing) `tags` parameter with 400, and otherwise
redirects to exactly
`{baseUrl}{urlEncode(tags)}%2c{globalBaseTag}?&model={modelName}&nologo=true`
— the tags encoded once, then the literal pre-encoded `%2c` separator, then
the raw base tag. -/
theorem pollinations_redirect_construction (cfg : Config) (apiKey : String)
    (q : String → Option String) (entry : RouteEntry) (burl mn : String) :
    apiKey.data.contains '.' = false → apiKey ≠ "favicon.ico" →
    apiKey ≠ "config" → apiKey ≠ "admin.html" →
    cfgLookup cfg apiKey = some entry →
    jsTruthyOptStr entry.method = true →
    entry.urlConstruction = some "special_pollinations" →
    entry.url = some burl → entry.modelName = some mn →
    ((q "tags" = none ∨ q "tags" = some "") →
      apiKeyHandler cfg apiKey q = .respond (.status_json 400 missingTagsBody)) ∧
    (∀ t, q "tags" = some t → t ≠ "" →
      apiKeyHandler cfg apiKey q = .respond (.redirect (burl ++
        encodeURIComponent t ++ "%2c" ++ jsOrStr cfg.baseTag "" ++
        "?&model=" ++ mn ++ "&nologo=true"))) := by
  intro h1 h2 h3 h4 hl hm hu hurl hmn
  have hdot : ('.' : Char) ∉ apiKey.data := by
    intro hmem
    have := List.elem_eq_true_of_mem hmem
    rw [show apiKey.data.elem '.' = apiKey.data.contains '.' from rfl, h1] at this
    exact Bool.noConfusion this
  constructor
  · intro htags
    have htf : jsStrFalsy (q "tags") = true := by
      rcases htags with h | h <;> simp [jsStrFalsy, jsTruthyOptStr, h]
    simp [apiKeyHandler, h1, h2, h3, h4, hl, hm, hu, htf, hdot]
  · intro t ht hne
    have htf : jsStrFalsy (some t) = false := by
      simp [jsStrFalsy, jsTruthyOptStr, hne]
    simp [apiKeyHandler, h1, h2, h3, h4, hl, hm, hu, hurl, hmn, ht, htf, hdot,
      jsTmpl]

/-- C4 (witness): the specification example — route `flux`, base URL
`https://img.example/prompt/`, model `flux`, base tag `quality%20tag`, raw
tags value `cat%2Cwater` — and the missing-tags rejection. -/
theorem pollinations_redirect_construction_witness :
    apiKeyHandler exPollCfg "flux" exPollQ = .respond (.redirect
      "https://img.example/prompt/cat%252Cwater%2cquality%20tag?&model=flux&nologo=true") ∧
    apiKeyHandler exPollCfg "flux" exEmptyQ =
      .respond (.status_json 400 missingTagsBody) := by
  have h := pollinations_redirect_construction exPollCfg "flux" exPollQ
    exPollEntry "https://img.example/prompt/" "flux" (by rfl) (by decide)
    (by decide) (by decide) (by rfl) (by rfl) (by rfl) (by rfl) (by rfl)
  have h0 := pollinations_redirect_construction exPollCfg "flux" exEmptyQ
    exPollEntry "https://img.example/prompt/" "flux" (by rfl) (by decide)
    (by decide) (by decide) (by rfl) (by rfl) (by rfl) (by rfl) (by rfl)
  exact ⟨(h.2 "cat%2Cwater" (by rfl) (by decide)).trans (by rfl),
    h0.1 (Or.inl (by rfl))⟩

/-- Helper: once the key resolves to an entry carrying none of the three
special constructions, the wildcard handler is the early-exit chain followed
by the generic branch. -/
theorem apiKeyHandler_generic (cfg : Config) (apiKey : String)
    (q : String → Option String) (entry : RouteEntry)
    (hl : cfgLookup cfg apiKey = some entry)
    (hs1 : entry.urlConstruction ≠ some "special_forward")
    (hs2 : entry.urlConstruction ≠ some "special_pollinations")
    (hs3 : entry.urlConstruction ≠ some "special_draw_redirect") :
    apiKeyHandler cfg apiKey q =
      if apiKey.data.contains '.' || apiKey = "favicon.ico" then .next
      else if apiKey = "config" then .next
      else if apiKey = "admin.html" then .next
      else if !jsTruthyOptStr entry.method then .next
      else genericResolve entry q := by
  simp only [apiKeyHandler, hl]
  rw [if_neg hs1, if_neg hs2, if_neg hs3]

/-- Helper: the validation loop reads the query only at the schema names. -/
theorem validateLoop_congr (q1 q2 : String → Option String) :
    ∀ (specs : List ParamSpec) (acc : List (String × String) × List String),
      (∀ p ∈ specs, q1 p.name = q2 p.name) →
      validateLoop q1 specs acc = validateLoop q2 specs acc := by
  intro specs
  induction specs with
  | nil => intro acc _; rfl
  | cons p rest ih =>
    intro acc hag
    simp only [validateLoop]
    have hstep : validateStep q1 acc p = validateStep q2 acc p := by
      unfold validateStep
      rw [hag p (List.mem_cons_self _ _)]
    rw [hstep]
    exact ih _ (fun p' hp' => hag p' (List.mem_cons_of_mem _ hp'))

/-- Helper: every binding produced by one validation step carries a key that
was already bound or is the processed spec's name. -/
theorem mem_validateStep (q : String → Option String)
    (acc : List (String × String) × List String) (p : ParamSpec) (k v : String)
    (h : (k, v) ∈ (validateStep q acc p).1) : (k, v) ∈ acc.1 ∨ k = p.name := by
  unfold validateStep at h
  rcases hq : q p.name with _ | val
  · simp only [hq] at h
    by_cases hr : p.required = true
    · rw [if_pos hr] at h
      exact Or.inl h
    · rw [if_neg hr] at h
      rcases hd : p.defaultValue with _ | d
      · simp only [hd] at h
        exact Or.inl h
      · simp only [hd] at h
        exact mem_jsSet _ _ _ _ _ h
  · simp only [hq] at h
    rcases hvv : p.validValues with _ | vs
    · simp only [hvv] at h
      exact mem_jsSet _ _ _ _ _ h
    · simp only [hvv] at h
      cases hc : vs.contains val with
      | true =>
        rw [if_pos hc] at h
        exact mem_jsSet _ _ _ _ _ h
      | false =>
        rw [if_neg (by rw [hc]; exact Bool.false_ne_true)] at h
        exact Or.inl h

/-- Helper: every binding produced by the validation loop carries a key that
was already bound or is one of the schema names. -/
theorem validateLoop_keys (q : String → Option String) :
    ∀ (specs : List ParamSpec) (acc : List (String × String) × List String)
      (k v : String), (k, v) ∈ (validateLoop q specs acc).1 →
      (k, v) ∈ acc.1 ∨ k ∈ specs.map ParamSpec.name := by
  intro specs
  induction specs with
  | nil => intro acc k v h; exact Or.inl h
  | cons p rest ih =>
    intro acc k v h
    simp only [validateLoop] at h
    rcases ih _ k v h with hm | hk
    · rcases mem_validateStep q acc p k v hm with hin | heq
      · exact Or.inl hin
      · exact Or.inr (by simp [heq])
    · exact Or.inr (by simp [hk])

/-- C10: generic route resolution depends only on the query parameters named
in the route's schema — two requests agreeing on every schema-listed name
resolve identically — and every validated binding forwarded upstream carries
a schema-listed name, so unlisted query parameters are never forwarded. -/
theorem generic_resolution_schema_only (cfg : Config) (apiKey : String)
    (q1 q2 : String → Option String) (entry : RouteEntry) :
    cfgLookup cfg apiKey = some entry →
    entry.urlConstruction ≠ some "special_forward" →
    entry.urlConstruction ≠ some "special_pollinations" →
    entry.urlConstruction ≠ some "special_draw_redirect" →
    (∀ p ∈ entry.queryParams.getD [], q1 p.name = q2 p.name) →
    apiKeyHandler cfg apiKey q1 = apiKeyHandler cfg apiKey q2 ∧
    (∀ k v, (k, v) ∈ (validateQueryParams (entry.queryParams.getD []) q1).1 →
      k ∈ (entry.queryParams.getD []).map ParamSpec.name) := by
  intro hl hs1 hs2 hs3 hag
  have hval : validateQueryParams (entry.queryParams.getD []) q1 =
      validateQueryParams (entry.queryParams.getD []) q2 :=
    validateLoop_congr q1 q2 _ _ hag
  constructor
  · rw [apiKeyHandler_generic cfg apiKey q1 entry hl hs1 hs2 hs3,
      apiKeyHandler_generic cfg apiKey q2 entry hl hs1 hs2 hs3]
    have hres : genericResolve entry q1 = genericResolve entry q2 := by
      unfold genericResolve
      rw [hval]
    rw [hres]
  · intro k v hmem
    rcases validateLoop_keys q1 (entry.queryParams.getD []) ([], []) k v hmem
      with hin | hk
    · exact absurd hin (List.not_mem_nil _)
    · exact hk

/-- C10 (witness): on the example generic route, a request carrying an extra
unlisted `junk` parameter resolves exactly like the request without it, and
`junk` is not among the forwarded parameters. -/
theorem generic_resolution_schema_only_witness :
    apiKeyHandler exRedirectCfg "img" exJunkQ =
      apiKeyHandler exRedirectCfg "img" exColorQ ∧
    "junk" ∉ (validateQueryParams (exRedirectEntry.queryParams.getD [])
      exJunkQ).1.map Prod.fst := by
  have h := generic_resolution_schema_only exRedirectCfg "img" exJunkQ exColorQ
    exRedirectEntry (by rfl) (by decide) (by decide) (by decide)
    (by intro p hp
        have hpe : p = { name := "color", defaultValue := some "red" } := by
          simpa [exRedirectEntry] using hp
        subst hpe
        rfl)
  refine ⟨h.1, fun hmem => ?_⟩
  obtain ⟨⟨k, v⟩, hin, hk⟩ := List.mem_map.mp hmem
  have hsch := h.2 k v hin
  have hk' : k = "junk" := hk
  subst hk'
  simp [exRedirectEntry] at hsch
